import Mathlib

/-!
Verification of the transform core of the automated ETL pipeline
(`transformer.py`): the Loader, Cleaner, Feature Builder, Quality Reporter
and Analysis Engine, modelled as pure functions on a shallow embedding of
pandas DataFrames.  Numeric cell values are idealized as rationals (the
executable model); the z-score normalization, whose scale factor is a
square root, is analyzed over the reals.
-/

namespace ETL

/-! ## Data model

A pandas DataFrame: an ordered list of named columns, each carrying a
dtype tag and a list of cell values.  `nRows` models `len(df)` (the index
length).  Cell values: numbers, strings, missing (`NaN`/`NaT`/`None`),
structured values (`dict`/`list`, identified by their textual
representation), and timestamps (year, month, day, hour components). -/

inductive Dtype where
  | float64 | int64 | float32 | int32 | object | datetime
deriving DecidableEq, Repr

/-- `select_dtypes(include=[np.number])` membership: integer and floating
dtypes; `object` and `datetime64` columns are not numeric. -/
def Dtype.isNumeric : Dtype → Bool
  | .float64 | .int64 | .float32 | .int32 => true
  | _ => false

def Dtype.name : Dtype → String
  | .float64 => "float64"
  | .int64 => "int64"
  | .float32 => "float32"
  | .int32 => "int32"
  | .object => "object"
  | .datetime => "datetime64"

inductive CVal where
  | num (q : ℚ)
  | str (s : String)
  | null
  | nested (s : String)
  | time (y m d h : Nat)
deriving DecidableEq, Repr

def CVal.isNull : CVal → Bool
  | .null => true
  | _ => false

def CVal.isNested : CVal → Bool
  | .nested _ => true
  | _ => false

def CVal.isTime : CVal → Bool
  | .time _ _ _ _ => true
  | _ => false

structure Col where
  dtype : Dtype
  cells : List CVal
deriving DecidableEq, Repr

structure DataFrame where
  nRows : Nat
  cols : List (String × Col)
deriving DecidableEq, Repr

/-- The numeric values of a column, in row order, missing entries skipped
(pandas statistics such as `mean`, `quantile`, `median` skip `NaN`). -/
def cellNums (cells : List CVal) : List ℚ :=
  cells.filterMap fun c => match c with
    | .num q => some q
    | _ => none

/-! ## Statistics primitives (generic over an ordered field)

`mean` and `popVar` are the `numpy` population statistics (`ddof = 0`)
used by `StandardScaler`; `zval` is the per-value z-score with the
`StandardScaler` convention that a zero-variance column gets scale 1
instead of dividing by zero. -/

def listMean {α : Type} [Field α] (xs : List α) : α :=
  xs.sum / (xs.length : α)

def popVar {α : Type} [Field α] (xs : List α) : α :=
  (xs.map fun x => (x - listMean xs) ^ 2).sum / (xs.length : α)

def scaleOf {α : Type} [Field α] [DecidableEq α] (sqrtF : α → α) (xs : List α) : α :=
  if popVar xs = 0 then 1 else sqrtF (popVar xs)

def zval {α : Type} [Field α] [DecidableEq α] (sqrtF : α → α) (xs : List α) (x : α) : α :=
  (x - listMean xs) / scaleOf sqrtF xs

/-- Column-level semantics of `StandardScaler.fit_transform` on one
feature: subtract the column mean, divide by the population standard
deviation, with scale 1 when the variance is zero. -/
def standardScale {α : Type} [Field α] [DecidableEq α] (sqrtF : α → α) (xs : List α) : List α :=
  xs.map (zval sqrtF xs)

/-! ## Quantiles (pandas `Series.quantile`, linear interpolation)

`quantileN xs a b` is `quantile(a/b)` over the non-missing values:
sort ascending, take `h = (a/b) * (n-1)`, and linearly interpolate
between the floor and ceiling positions. -/

def sortedAsc (xs : List ℚ) : List ℚ :=
  List.insertionSort (· ≤ ·) xs

def quantileN (xs : List ℚ) (a b : Nat) : ℚ :=
  let s := sortedAsc xs
  let n := s.length
  if n = 0 then 0
  else
    let m := a * (n - 1)
    let k := m / b
    let r := m % b
    let lo := s.getD k 0
    let hi := s.getD (k + 1) lo
    lo + ((r : ℚ) / (b : ℚ)) * (hi - lo)

/-! ## Cleaner (`clean_data`)

Four steps, in source order: structural stringification, row
deduplication, missing-value imputation, outlier capping. -/

/-- `str(x)`: the textual representation a cell gets under
`astype(str)`. -/
def cellToStr : CVal → CVal
  | .num q => .str (toString q)
  | .str s => .str s
  | .null => .str "nan"
  | .nested s => .str s
  | .time y m d h =>
    .str (toString y ++ "-" ++ toString m ++ "-" ++ toString d ++ " " ++ toString h)

/-- `if df[col].apply(lambda x: isinstance(x, (dict, list))).any():
df[col] = df[col].astype(str)` — a column containing at least one
structured value is fully converted to strings (dtype becomes
`object`). -/
def stringifyCol (c : Col) : Col :=
  if c.cells.any CVal.isNested then ⟨.object, c.cells.map cellToStr⟩ else c

def stringifyDf (df : DataFrame) : DataFrame :=
  { df with cols := df.cols.map fun p => (p.1, stringifyCol p.2) }

/-- Row `i` of the DataFrame (one cell per column). -/
def rowAt (df : DataFrame) (i : Nat) : List CVal :=
  df.cols.map fun p => p.2.cells.getD i .null

/-- Indices of the rows `drop_duplicates` keeps: first occurrences of
each full-row value (pandas treats `NaN` as equal to `NaN` here). -/
def keepIdx (df : DataFrame) : List Nat :=
  (List.range df.nRows).filter fun i =>
    (List.range i).all fun j => decide (rowAt df j ≠ rowAt df i)

/-- Restrict a cell list to a set of kept row indices (order
preserved). -/
def selectIdx (keep : List Nat) (cells : List CVal) : List CVal :=
  (cells.enum.filter fun p => keep.contains p.1).map Prod.snd

/-- `df = df.drop_duplicates()` — exact full-row duplicates removed,
first occurrence kept, surviving row order preserved. -/
def dedupDf (df : DataFrame) : DataFrame :=
  { nRows := (keepIdx df).length,
    cols := df.cols.map fun p => (p.1, ⟨p.2.dtype, selectIdx (keepIdx df) p.2.cells⟩) }

/-- `df[col].mean()` skipping missing values: `none` when no value is
present (the mean of an all-missing column is `NaN`). -/
def colMean (cells : List CVal) : Option ℚ :=
  if cellNums cells = [] then none else some (listMean (cellNums cells))

def fillNullNum (m : ℚ) : CVal → CVal
  | .null => .num m
  | c => c

def fillNullStr : CVal → CVal
  | .null => .str "missing"
  | c => c

/-- Imputation for one column.
`if df[col].dtype in [np.float64, np.int64]: df[col] =
df[col].fillna(df[col].mean()) else: df[col] = df[col].fillna("missing")`.
Filling an all-missing numeric column with its `NaN` mean is a no-op;
filling a non-`float64`/`int64` column that has missing entries with the
string sentinel upcasts its dtype to `object`. -/
def imputeCol (c : Col) : Col :=
  if c.dtype = .float64 ∨ c.dtype = .int64 then
    match colMean c.cells with
    | none => c
    | some m => ⟨c.dtype, c.cells.map (fillNullNum m)⟩
  else
    if c.cells.any CVal.isNull then ⟨.object, c.cells.map fillNullStr⟩
    else c

def imputeDf (df : DataFrame) : DataFrame :=
  { df with cols := df.cols.map fun p => (p.1, imputeCol p.2) }

/-- Outlier capping for the cell list of one numeric column:
`Q1, Q3 = quantile(0.25), quantile(0.75); IQR = Q3 - Q1;
np.where((col < Q1 - 1.5*IQR) | (col > Q3 + 1.5*IQR), median, col)`.
Quantiles skip missing values; a `NaN` cell compares false on both
sides and is left in place.  On an all-missing column the quantiles are
`NaN`, every comparison is false, and nothing changes. -/
def capCell (nums : List ℚ) (c : CVal) : CVal :=
  let q1 := quantileN nums 1 4
  let q3 := quantileN nums 3 4
  let iqr := q3 - q1
  let lower := q1 - 3/2 * iqr
  let upper := q3 + 3/2 * iqr
  let med := quantileN nums 2 4
  match c with
  | .num q => if q < lower ∨ q > upper then .num med else .num q
  | other => other

def capColumn (cells : List CVal) : List CVal :=
  if cellNums cells = [] then cells
  else cells.map (capCell (cellNums cells))

/-- The capping pass over `numeric_cols =
df.select_dtypes(include=[np.number]).columns`; the `np.where` result is
a `float64` array, so every selected column ends up `float64`. -/
def capDf (df : DataFrame) : DataFrame :=
  { df with cols := df.cols.map fun p =>
      if p.2.dtype.isNumeric then (p.1, ⟨.float64, capColumn p.2.cells⟩) else p }

/-- `clean_data`: stringify structured columns, drop duplicate rows,
impute missing values, cap outliers — in source order. -/
def cleanData (df : DataFrame) : DataFrame :=
  capDf (imputeDf (dedupDf (stringifyDf df)))

/-! ## Feature Builder (`feature_engineering`) -/

def findCol (df : DataFrame) (name : String) : Option Col :=
  (df.cols.filter fun p => p.1 == name).head?.map Prod.snd

/-- `df[name] = c`: replace the column when the name exists, append it
otherwise. -/
def setCol (df : DataFrame) (name : String) (c : Col) : DataFrame :=
  if df.cols.any (fun p => p.1 == name) then
    { df with cols := df.cols.map fun p => if p.1 == name then (name, c) else p }
  else
    { df with cols := df.cols ++ [(name, c)] }

/-- `pd.to_datetime(x, errors="coerce")` on one cell.  Timestamp values
pass through; everything else is modelled as `NaT` (which strings or
numbers pandas would parse successfully is irrelevant to the claims
settled here, which only depend on row counts and column structure). -/
def toDatetimeCell : CVal → CVal
  | .time y m d h => .time y m d h
  | _ => .null

def yearCell : CVal → CVal
  | .time y _ _ _ => .num (y : ℚ)
  | _ => .null

def monthCell : CVal → CVal
  | .time _ m _ _ => .num (m : ℚ)
  | _ => .null

def dayCell : CVal → CVal
  | .time _ _ d _ => .num (d : ℚ)
  | _ => .null

def hourCell : CVal → CVal
  | .time _ _ _ h => .num (h : ℚ)
  | _ => .null

/-- z-score one column of cells in place: missing entries stay missing
(`StandardScaler` fits on the non-missing values and propagates `NaN`),
numeric entries are standardized with the statistics of the non-missing
values. -/
def scaleColCells (sqrtF : ℚ → ℚ) (cells : List CVal) : List CVal :=
  cells.map fun c => match c with
    | .num q => .num (zval sqrtF (cellNums cells) q)
    | other => other

/-- `feature_engineering`: when a `timestamp` column exists, coerce it to
datetime and — when at least one value parsed — derive `year`, `month`,
`day`, `hour` columns (`dt.year` etc. give `NaN` where parsing failed, so
those derived columns are `float64` when any value is missing, `int32`
otherwise); then z-score–normalize every numeric column.  The square
root used by the scaler is passed in as `sqrtF` (the executable model is
over the rationals; the normalization facts are proved over the reals
with `Real.sqrt`). -/
def featureEngineering (sqrtF : ℚ → ℚ) (df : DataFrame) : DataFrame :=
  let df1 :=
    match findCol df "timestamp" with
    | none => df
    | some c =>
      let parsed := c.cells.map toDatetimeCell
      let dfT := setCol df "timestamp" ⟨.datetime, parsed⟩
      if parsed.any CVal.isTime then
        let dt := if parsed.any CVal.isNull then Dtype.float64 else Dtype.int32
        let d1 := setCol dfT "year" ⟨dt, parsed.map yearCell⟩
        let d2 := setCol d1 "month" ⟨dt, parsed.map monthCell⟩
        let d3 := setCol d2 "day" ⟨dt, parsed.map dayCell⟩
        setCol d3 "hour" ⟨dt, parsed.map hourCell⟩
      else dfT
  { df1 with cols := df1.cols.map fun p =>
      if p.2.dtype.isNumeric then (p.1, ⟨.float64, scaleColCells sqrtF p.2.cells⟩)
      else p }

/-! ## Quality Reporter (`data_quality_report`) -/

structure QualityReport where
  rows : Nat
  columns : Nat
  missingValues : List (String × Nat)
  dtypes : List (String × String)
  statsCount : List (String × Nat)
deriving DecidableEq, Repr

/-- `data_quality_report`: row and column counts, per-column missing
counts (`df.isna().sum()`), per-column dtype names, and the `count` row
of `df.describe(include="all")` (the non-missing count; the remaining
descriptive statistics are not referenced by any claim and are not
modelled).  The Python function receives the DataFrame object and could
mutate it, so the embedding passes the dataset through explicitly: the
second component is the dataset as the caller sees it after the call. -/
def dataQualityReport (df : DataFrame) : QualityReport × DataFrame :=
  ({ rows := df.nRows,
     columns := df.cols.length,
     missingValues := df.cols.map fun p => (p.1, p.2.cells.countP CVal.isNull),
     dtypes := df.cols.map fun p => (p.1, p.2.dtype.name),
     statsCount := df.cols.map fun p => (p.1, p.2.cells.countP fun c => !c.isNull) },
   df)

/-! ## Analysis Engine (`ml_analysis`)

Only the control flow and shape contracts of the fitted models are
modelled, since no claim references the label values: `fit_predict`
returns one label per input row, and `KMeans.fit` raises `ValueError`
when the sample count is below `n_clusters`.  `IsolationForest` and
`KMeans` label values themselves are not modelled. -/

def valueCounts (xs : List ℚ) : List (ℚ × Nat) :=
  (xs.dedup).map fun v => (v, xs.count v)

def isoFitPredict (n : Nat) : List ℚ :=
  List.replicate n 1

def kmeansFitPredict (n k : Nat) : Except String (List ℚ) :=
  if n < k then .error "ValueError: n_samples should be >= n_clusters"
  else .ok (List.replicate n 0)

def numericColNames (df : DataFrame) : List String :=
  (df.cols.filter fun p => p.2.dtype.isNumeric).map Prod.fst

structure MLResults where
  anomalyCounts : List (ℚ × Nat) := []
  clusterCounts : List (ℚ × Nat) := []
deriving DecidableEq, Repr

/-- `ml_analysis`: on a nonempty numeric sub-frame, append an `anomaly`
label column (IsolationForest) and a `cluster` label column (KMeans,
`n_clusters = 3`), tallying label counts.  The KMeans fit raises — there
is no `try`/`except` in the source — so the whole call fails when the
row count is below 3.  An empty numeric sub-frame (no numeric columns,
or zero rows) yields the input unchanged with empty results. -/
def mlAnalysis (df : DataFrame) : Except String (DataFrame × MLResults) :=
  if (numericColNames df).isEmpty || df.nRows == 0 then .ok (df, {})
  else
    let labels := isoFitPredict df.nRows
    let dfA := setCol df "anomaly" ⟨.int64, labels.map CVal.num⟩
    match kmeansFitPredict df.nRows 3 with
    | .error e => .error e
    | .ok cl =>
      let dfC := setCol dfA "cluster" ⟨.int64, cl.map CVal.num⟩
      .ok (dfC, { anomalyCounts := valueCounts labels, clusterCounts := valueCounts cl })

/-! ## Loader (`load_staged_file`) -/

/-- Glob match for `source__*.parquet`: the name starts with
`source__`, ends with `.parquet`, and is long enough that the prefix and
suffix do not overlap (`*` matches the possibly empty middle).  Stated on
the character lists of the strings. -/
def matchesPattern (source fname : String) : Bool :=
  let pre := (source ++ "__").toList
  let suf := ".parquet".toList
  pre.isPrefixOf fname.toList && suf.isSuffixOf fname.toList &&
    decide (pre.length + suf.length ≤ fname.toList.length)

/-- `load_staged_file`: among the staged files whose names match
`source__*.parquet`, pick the lexicographically last
(`sorted(...)[-1]`) and load its dataset; raise `FileNotFoundError`
naming the source when no file matches.  `staging` models the staging
directory as an association list from file name to the dataset stored in
the file. -/
def loadStagedFile (staging : List (String × DataFrame)) (source : String) :
    Except String DataFrame :=
  let files := List.insertionSort (· ≤ ·)
    ((staging.filter fun p => matchesPattern source p.1).map Prod.fst)
  match files.getLast? with
  | none => .error ("FileNotFoundError: No staged files for source: " ++ source)
  | some latest =>
    match (staging.filter fun p => p.1 == latest).head? with
    | some p => .ok p.2
    | none => .error ("read error: " ++ latest)

/-! ## Main pipeline (`main`) -/

structure FinalResults where
  dataQuality : QualityReport
  mlResults : MLResults
deriving DecidableEq, Repr

/-- `main(source)`: load, clean, featurize, report, analyze, then hand
the processed dataset and the merged record to `save_processed`.  An
uncaught exception anywhere (no staged file, KMeans failure) aborts the
run before anything is saved: the model returns `Except.error` and no
`FinalResults` record exists. -/
def mainPipeline (sqrtF : ℚ → ℚ) (staging : List (String × DataFrame))
    (source : String) : Except String (DataFrame × FinalResults) :=
  match loadStagedFile staging source with
  | .error e => .error e
  | .ok df0 =>
    let df1 := cleanData df0
    let df2 := featureEngineering sqrtF df1
    let (report, df3) := dataQualityReport df2
    match mlAnalysis df3 with
    | .error e => .error e
    | .ok (df4, mlr) => .ok (df4, { dataQuality := report, mlResults := mlr })

/-! ## Well-formedness

All columns of a DataFrame carry one cell per row. -/

def wellFormed (df : DataFrame) : Prop :=
  ∀ p ∈ df.cols, p.2.cells.length = df.nRows

/-! ## Concrete fixtures used by counterexamples and witnesses -/

/-- The spec §8 scenario dataset: one numeric column `[1,2,3,4,100]`. -/
def dfScenario : DataFrame :=
  ⟨5, [("value", ⟨.float64, [.num 1, .num 2, .num 3, .num 4, .num 100]⟩)]⟩

/-- A float64 column that is entirely missing. -/
def dfAllMissing : DataFrame := ⟨2, [("x", ⟨.float64, [.null, .null]⟩)]⟩

/-- A non-constant column whose interquartile range is zero. -/
def zeroIqrColumn : List CVal := [.num 1, .num 1, .num 1, .num 1, .num 100]

/-- A constant column (with a missing entry). -/
def constantColumn : List CVal := [.num 5, .num 5, .null]

/-- A column for the capping-bounds witness. -/
def capWitnessColumn : List CVal := [.num 1, .num 2, .num 3, .num 4, .num 100]

/-- A float32 column with a missing entry. -/
def float32MissingCol : Col := ⟨.float32, [.num 1, .null]⟩

/-- A float32 column without missing entries. -/
def float32FullCol : Col := ⟨.float32, [.num 1, .num 2]⟩

/-- Two rows only: fewer samples than the fixed cluster count 3. -/
def dfTwoRows : DataFrame := ⟨2, [("x", ⟨.float64, [.num 1, .num 2]⟩)]⟩

/-- A staging directory holding one staged file for source `s`. -/
def stagingC5 : List (String × DataFrame) := [("s__1.parquet", dfTwoRows)]

/-- Three rows: enough samples for the cluster count 3. -/
def dfThreeRows : DataFrame := ⟨3, [("x", ⟨.float64, [.num 1, .num 2, .num 3]⟩)]⟩

/-- A staging directory with two staged files for source `w` (the
lexicographically last is `w__2.parquet`) and one file of another
source. -/
def stagingW : List (String × DataFrame) :=
  [("w__1.parquet", dfTwoRows), ("w__2.parquet", dfThreeRows), ("v__9.parquet", dfAllMissing)]

/-- The output of `mlAnalysis` on `dfThreeRows`: anomaly and cluster
label columns appended. -/
def dfThreeOut : DataFrame :=
  ⟨3, [("x", ⟨.float64, [.num 1, .num 2, .num 3]⟩),
       ("anomaly", ⟨.int64, [.num 1, .num 1, .num 1]⟩),
       ("cluster", ⟨.int64, [.num 0, .num 0, .num 0]⟩)]⟩

/-- The results record of `mlAnalysis` on `dfThreeRows`. -/
def resThree : MLResults := ⟨[(1, 3)], [(0, 3)]⟩

/-! # Theorems -/

/-- Claim C9: the Quality Reporter is a pure function of the dataset —
after `data_quality_report` runs, the dataset is unchanged (same columns,
same rows, same values).  The embedding threads the dataset through the
call explicitly; the body of `dataQualityReport` only reads it. -/
theorem dataQualityReport_no_mutation (df : DataFrame) :
    (dataQualityReport df).2 = df := rfl

/-- Claim C2 (code bug): after cleaning a dataset whose float64 column is
entirely missing, that column still has a missing entry — the mean of an
all-missing column is `NaN` and `fillna(NaN)` is a no-op, so the
post-imputation missing count is 1, not 0 as the spec requires. -/
theorem cleanData_leaves_missing_on_all_missing_column :
    (dataQualityReport (cleanData dfAllMissing)).1.missingValues = [("x", 1)] ∧
    cleanData dfAllMissing = ⟨1, [("x", ⟨.float64, [.null]⟩)]⟩ := by
  constructor <;> rfl

/-- Claim C5 (code bug): `ml_analysis` has no exception handling, so on a
cleaned dataset with fewer rows than the fixed cluster count 3 the KMeans
fit raises, the error propagates out of `main`, and no result record is
assembled (the quality report already computed is lost): the pipeline
returns the KMeans error instead of a partial result with empty
`ml_analysis`.  This holds for any square-root function used by the
scaler, since the failure is decided by row count alone. -/
theorem mainPipeline_aborts_when_rows_lt_clusters (sqrtF : ℚ → ℚ) :
    mainPipeline sqrtF stagingC5 "s" =
      .error "ValueError: n_samples should be >= n_clusters" := by
  rfl

/-- Claim C10, counterexample: a float32 column with a missing entry does
get the string sentinel, but the fill upcasts its dtype to `object`, so
the outlier-capping step's numeric-dtype selection does NOT treat it as
numeric afterwards — refuting the claim's final clause. -/
theorem imputeCol_float32_not_numeric_after_fill :
    (imputeCol float32MissingCol).cells = [.num 1, .str "missing"] ∧
    (imputeCol float32MissingCol).dtype = .object ∧
    (imputeCol float32MissingCol).dtype.isNumeric = false := by
  refine ⟨rfl, rfl, rfl⟩

/-- Claim C10, amended: mean imputation applies only to dtypes exactly
`float64`/`int64`.  A numeric column of another dtype (`float32`/`int32`)
with missing entries has them replaced by the string sentinel `missing`,
which upcasts the column to `object` so the capping step's numeric-dtype
selection no longer includes it; such a column without missing entries is
left untouched by imputation and is still selected as numeric by the
capping step. -/
theorem imputeCol_dtype_policy (c : Col)
    (h : c.dtype = .float32 ∨ c.dtype = .int32) :
    (c.cells.any CVal.isNull = true →
      imputeCol c = ⟨.object, c.cells.map fillNullStr⟩ ∧
      (imputeCol c).dtype.isNumeric = false) ∧
    (c.cells.any CVal.isNull = false →
      imputeCol c = c ∧ (imputeCol c).dtype.isNumeric = true) := by
  have hne : ¬(c.dtype = .float64 ∨ c.dtype = .int64) := by
    rcases h with h | h <;> simp [h]
  constructor
  · intro hnull
    have : imputeCol c = ⟨.object, c.cells.map fillNullStr⟩ := by
      unfold imputeCol
      rw [if_neg hne, if_pos hnull]
    exact ⟨this, by rw [this]; rfl⟩
  · intro hnull
    have : imputeCol c = c := by
      unfold imputeCol
      rw [if_neg hne, hnull]
      simp
    refine ⟨this, ?_⟩
    rw [this]
    rcases h with h | h <;> rw [h] <;> rfl

/-- Witness for `imputeCol_dtype_policy` at concrete float32 columns,
one with and one without a missing entry. -/
theorem imputeCol_dtype_policy_witness :
    ((float32MissingCol.dtype = .float32 ∨ float32MissingCol.dtype = .int32) ∧
      imputeCol float32MissingCol = ⟨.object, float32MissingCol.cells.map fillNullStr⟩) ∧
    ((float32FullCol.dtype = .float32 ∨ float32FullCol.dtype = .int32) ∧
      imputeCol float32FullCol = float32FullCol ∧
      (imputeCol float32FullCol).dtype.isNumeric = true) :=
  ⟨⟨Or.inl rfl, ((imputeCol_dtype_policy float32MissingCol (Or.inl rfl)).1 rfl).1⟩,
   ⟨Or.inl rfl, (imputeCol_dtype_policy float32FullCol (Or.inl rfl)).2 rfl⟩⟩

/-- In a list sorted ascending, every element is at most the last one. -/
theorem le_getLast_of_sorted {α : Type} [LinearOrder α] :
    ∀ (l : List α), l.Sorted (· ≤ ·) → ∀ x ∈ l, ∀ hne : l ≠ [],
      x ≤ l.getLast hne
  | [], _, x, hx, hne => absurd rfl hne
  | a :: t, hs, x, hx, hne => by
    rcases List.sorted_cons.mp hs with ⟨ha, ht⟩
    cases t with
    | nil =>
      simp only [List.mem_singleton] at hx
      simp [hx, List.getLast]
    | cons b u =>
      rw [List.getLast_cons (by simp : b :: u ≠ [])]
      rcases List.mem_cons.mp hx with rfl | hx
      · exact le_trans (ha _ (List.getLast_mem _)) (le_refl _)
      · exact le_getLast_of_sorted (b :: u) ht x hx (by simp)

/-- Claim C8: with zero staged files matching `source__*.parquet` the
Loader fails with a not-found error whose message contains the source
name; with at least one match it returns the dataset of a matching file
whose name is lexicographically last among the matches
(`sorted(...)[-1]`). -/
theorem loadStagedFile_spec (staging : List (String × DataFrame)) (source : String) :
    (staging.filter (fun p => matchesPattern source p.1) = [] →
      loadStagedFile staging source =
        .error ("FileNotFoundError: No staged files for source: " ++ source) ∧
      ∃ pre, "FileNotFoundError: No staged files for source: " ++ source =
        pre ++ source) ∧
    (staging.filter (fun p => matchesPattern source p.1) ≠ [] →
      ∃ p ∈ staging.filter (fun p => matchesPattern source p.1),
        loadStagedFile staging source = .ok p.2 ∧
        ∀ q ∈ staging.filter (fun q => matchesPattern source q.1), q.1 ≤ p.1) := by
  constructor
  · intro hempty
    constructor
    · simp only [loadStagedFile, hempty]
      rfl
    · exact ⟨"FileNotFoundError: No staged files for source: ", rfl⟩
  · intro hne
    have hfe : ((staging.filter fun p => matchesPattern source p.1).map Prod.fst) ≠ [] := by
      intro h
      exact hne (List.map_eq_nil_iff.mp h)
    have hsne : List.insertionSort (· ≤ ·)
        ((staging.filter fun p => matchesPattern source p.1).map Prod.fst) ≠ [] := by
      intro h
      apply hfe
      have := (List.perm_insertionSort (· ≤ ·)
        ((staging.filter fun p => matchesPattern source p.1).map Prod.fst)).length_eq
      rw [h] at this
      exact List.eq_nil_of_length_eq_zero this.symm
    set files := List.insertionSort (· ≤ ·)
      ((staging.filter fun p => matchesPattern source p.1).map Prod.fst) with hfiles
    have hlast : files.getLast? = some (files.getLast hsne) :=
      List.getLast?_eq_getLast files hsne
    set lst := files.getLast hsne with hlst
    have hlstmem : lst ∈ files := List.getLast_mem hsne
    have hlstms : lst ∈ (staging.filter fun p => matchesPattern source p.1).map Prod.fst := by
      rw [hfiles] at hlstmem
      exact (List.mem_insertionSort _).mp hlstmem
    rcases List.mem_map.mp hlstms with ⟨q, hqmem, hqname⟩
    have hq2 : q ∈ staging ∧ matchesPattern source q.1 = true := List.mem_filter.mp hqmem
    have hqlookup : q ∈ staging.filter fun p => p.1 == lst := by
      rw [List.mem_filter]
      exact ⟨hq2.1, by rw [hqname]; simp⟩
    have hlookupne : (staging.filter fun p => p.1 == lst) ≠ [] := by
      intro h
      rw [h] at hqlookup
      exact absurd hqlookup (List.not_mem_nil q)
    cases e : staging.filter (fun p => p.1 == lst) with
    | nil => exact absurd e hlookupne
    | cons hd tl =>
      have hhdmem : hd ∈ staging.filter fun p => p.1 == lst := by
        rw [e]; exact List.mem_cons_self hd tl
      have hhd : hd ∈ staging ∧ (hd.1 == lst) = true := List.mem_filter.mp hhdmem
      have hhdname : hd.1 = lst := by
        have := hhd.2
        simpa using this
      refine ⟨hd, ?_, ?_, ?_⟩
      · rw [List.mem_filter]
        refine ⟨hhd.1, ?_⟩
        rw [hhdname, ← hqname]
        exact hq2.2
      · simp only [loadStagedFile]
        rw [← hfiles, hlast]
        show (match (List.filter (fun p => p.1 == lst) staging).head? with
              | some p => Except.ok p.2
              | none => Except.error ("read error: " ++ lst)) = Except.ok hd.2
        rw [e]
        rfl
      · intro r hrmem
        have hrf : r.1 ∈ files := by
          rw [hfiles]
          exact (List.mem_insertionSort _).mpr (List.mem_map_of_mem Prod.fst hrmem)
        rw [hhdname, hlst]
        exact le_getLast_of_sorted files
          (List.sorted_insertionSort _ _) r.1 hrf hsne

/-- Witness for `loadStagedFile_spec`: a staging directory with two
matching files and one file of another source. -/
theorem loadStagedFile_spec_witness :
    (stagingW.filter (fun p => matchesPattern "w" p.1) ≠ []) ∧
    (∃ p ∈ stagingW.filter (fun p => matchesPattern "w" p.1),
        loadStagedFile stagingW "w" = .ok p.2 ∧
        ∀ q ∈ stagingW.filter (fun q => matchesPattern "w" q.1), q.1 ≤ p.1) := by
  have hne : stagingW.filter (fun p => matchesPattern "w" p.1) ≠ [] := by
    have h : stagingW.filter (fun p => matchesPattern "w" p.1) =
        [("w__1.parquet", dfTwoRows), ("w__2.parquet", dfThreeRows)] := rfl
    rw [h]
    simp
  exact ⟨hne, (loadStagedFile_spec stagingW "w").2 hne⟩

/-! ### Stage-shape lemmas (Feature Builder, Analysis Engine) -/

theorem setCol_nRows (df : DataFrame) (n : String) (c : Col) :
    (setCol df n c).nRows = df.nRows := by
  unfold setCol
  split <;> rfl

theorem setCol_cols_length (df : DataFrame) (n : String) (c : Col) :
    df.cols.length ≤ (setCol df n c).cols.length := by
  unfold setCol
  split <;> simp

theorem setCol_wellFormed (df : DataFrame) (n : String) (c : Col)
    (hwf : wellFormed df) (hc : c.cells.length = df.nRows) :
    wellFormed (setCol df n c) := by
  intro p hp
  rw [setCol_nRows]
  unfold setCol at hp
  split at hp
  · simp only at hp
    rcases List.mem_map.mp hp with ⟨q, hq, hqe⟩
    by_cases hname : (q.1 == n) = true
    · rw [if_pos hname] at hqe
      rw [← hqe]
      exact hc
    · rw [if_neg hname] at hqe
      rw [← hqe]
      exact hwf q hq
  · simp only at hp
    rcases List.mem_append.mp hp with hq | hq
    · exact hwf p hq
    · rw [List.mem_singleton.mp hq]
      exact hc

theorem findCol_mem (df : DataFrame) (name : String) (c : Col)
    (h : findCol df name = some c) : ∃ p ∈ df.cols, p.2 = c := by
  unfold findCol at h
  cases e : (df.cols.filter fun p => p.1 == name).head? with
  | none => rw [e] at h; cases h
  | some p =>
    rw [e] at h
    refine ⟨p, ?_, by injection h⟩
    have hmem : p ∈ df.cols.filter fun p => p.1 == name := List.mem_of_mem_head? e
    exact (List.mem_filter.mp hmem).1

theorem scaleColCells_length (sqrtF : ℚ → ℚ) (cells : List CVal) :
    (scaleColCells sqrtF cells).length = cells.length := by
  simp [scaleColCells]

theorem featureEngineering_nRows (sqrtF : ℚ → ℚ) (df : DataFrame) :
    (featureEngineering sqrtF df).nRows = df.nRows := by
  unfold featureEngineering
  cases h : findCol df "timestamp" with
  | none => rfl
  | some c =>
    simp only
    split
    · simp [setCol_nRows]
    · simp [setCol_nRows]

theorem featureEngineering_cols_length (sqrtF : ℚ → ℚ) (df : DataFrame) :
    df.cols.length ≤ (featureEngineering sqrtF df).cols.length := by
  unfold featureEngineering
  cases h : findCol df "timestamp" with
  | none => simp
  | some c =>
    simp only
    split
    · simp only [List.length_map]
      calc df.cols.length
          ≤ (setCol df "timestamp" ⟨.datetime, c.cells.map toDatetimeCell⟩).cols.length :=
            setCol_cols_length _ _ _
        _ ≤ _ := le_trans (setCol_cols_length _ _ _)
            (le_trans (setCol_cols_length _ _ _)
              (le_trans (setCol_cols_length _ _ _) (setCol_cols_length _ _ _)))
    · simp only [List.length_map]
      exact setCol_cols_length _ _ _

theorem featureEngineering_wellFormed (sqrtF : ℚ → ℚ) (df : DataFrame)
    (hwf : wellFormed df) : wellFormed (featureEngineering sqrtF df) := by
  unfold featureEngineering
  cases h : findCol df "timestamp" with
  | none =>
    simp only
    intro p hp
    rcases List.mem_map.mp hp with ⟨q, hq, hqe⟩
    rw [← hqe]
    split
    · simpa [scaleColCells] using hwf q hq
    · exact hwf q hq
  | some c =>
    simp only
    rcases findCol_mem df "timestamp" c h with ⟨pc, hpc, hpce⟩
    have hclen : c.cells.length = df.nRows := by
      rw [← hpce]
      exact hwf pc hpc
    have hparsed : (c.cells.map toDatetimeCell).length = df.nRows := by
      simpa using hclen
    have wf1 : wellFormed (setCol df "timestamp" ⟨.datetime, c.cells.map toDatetimeCell⟩) :=
      setCol_wellFormed _ _ _ hwf hparsed
    have step : ∀ (d : DataFrame), wellFormed d →
        wellFormed { d with cols := d.cols.map fun p =>
          if p.2.dtype.isNumeric then (p.1, ⟨.float64, scaleColCells sqrtF p.2.cells⟩)
          else p } := by
      intro d hd p hp
      rcases List.mem_map.mp hp with ⟨q, hq, hqe⟩
      rw [← hqe]
      split
      · simpa [scaleColCells] using hd q hq
      · exact hd q hq
    split
    · apply step
      apply setCol_wellFormed _ _ _
        (setCol_wellFormed _ _ _
          (setCol_wellFormed _ _ _
            (setCol_wellFormed _ _ _ wf1 (by simpa [setCol_nRows] using hparsed))
            (by simpa [setCol_nRows] using hparsed))
          (by simpa [setCol_nRows] using hparsed))
      simpa [setCol_nRows] using hparsed
    · exact step _ wf1

theorem mlAnalysis_ok_shape (df df' : DataFrame) (res : MLResults)
    (h : mlAnalysis df = .ok (df', res)) :
    df'.nRows = df.nRows ∧ df.cols.length ≤ df'.cols.length ∧
      (wellFormed df → wellFormed df') := by
  unfold mlAnalysis at h
  split at h
  · simp only [Except.ok.injEq, Prod.mk.injEq] at h
    rw [← h.1]
    exact ⟨rfl, le_refl _, fun hwf => hwf⟩
  · unfold kmeansFitPredict at h
    split at h
    · simp at h
    · rename_i x cl heq
      have hcl : cl.length = df.nRows := by
        split at heq
        · cases heq
        · injection heq with heq2
          rw [← heq2]
          simp
      simp only [Except.ok.injEq, Prod.mk.injEq] at h
      rw [← h.1]
      refine ⟨by rw [setCol_nRows, setCol_nRows], ?_, ?_⟩
      · exact le_trans (setCol_cols_length _ _ _) (setCol_cols_length _ _ _)
      · intro hwf
        apply setCol_wellFormed _ _ _
          (setCol_wellFormed _ _ _ hwf (by simp [isoFitPredict]))
        simp [setCol_nRows, hcl]

/-- Claim C6: the Feature Builder and the Analysis Engine preserve the
row count — the dataset each returns has exactly as many rows as the
dataset it receives (and every column keeps one cell per row) — and only
the column count may grow.  For the Analysis Engine the statement covers
every successful run (on failure it returns no dataset at all, see claim
C5). -/
theorem featureEngineering_mlAnalysis_preserve_rows (sqrtF : ℚ → ℚ)
    (df dfA df' : DataFrame) (res : MLResults)
    (h : mlAnalysis dfA = .ok (df', res)) :
    ((featureEngineering sqrtF df).nRows = df.nRows ∧
      df.cols.length ≤ (featureEngineering sqrtF df).cols.length ∧
      (wellFormed df → wellFormed (featureEngineering sqrtF df))) ∧
    (df'.nRows = dfA.nRows ∧ dfA.cols.length ≤ df'.cols.length ∧
      (wellFormed dfA → wellFormed df')) :=
  ⟨⟨featureEngineering_nRows sqrtF df, featureEngineering_cols_length sqrtF df,
      featureEngineering_wellFormed sqrtF df⟩,
   mlAnalysis_ok_shape dfA df' res h⟩

/-- Witness for `featureEngineering_mlAnalysis_preserve_rows` at a
concrete three-row dataset on which the Analysis Engine succeeds. -/
theorem featureEngineering_mlAnalysis_preserve_rows_witness :
    mlAnalysis dfThreeRows = .ok (dfThreeOut, resThree) ∧
    (featureEngineering id dfThreeRows).nRows = dfThreeRows.nRows ∧
    dfThreeOut.nRows = dfThreeRows.nRows ∧
    dfThreeRows.cols.length ≤ dfThreeOut.cols.length :=
  ⟨rfl,
   (featureEngineering_mlAnalysis_preserve_rows id dfThreeRows dfThreeRows
      dfThreeOut resThree rfl).1.1,
   (featureEngineering_mlAnalysis_preserve_rows id dfThreeRows dfThreeRows
      dfThreeOut resThree rfl).2.1,
   (featureEngineering_mlAnalysis_preserve_rows id dfThreeRows dfThreeRows
      dfThreeOut resThree rfl).2.2.1⟩

/-! ### Quantile lemmas -/

theorem sortedAsc_sorted (xs : List ℚ) : (sortedAsc xs).Sorted (· ≤ ·) :=
  List.sorted_insertionSort _ xs

theorem sortedAsc_perm (xs : List ℚ) : (sortedAsc xs).Perm xs :=
  List.perm_insertionSort _ xs

theorem mem_sortedAsc {x : ℚ} {xs : List ℚ} : x ∈ sortedAsc xs ↔ x ∈ xs :=
  List.mem_insertionSort _

theorem sortedAsc_length (xs : List ℚ) : (sortedAsc xs).length = xs.length :=
  (sortedAsc_perm xs).length_eq

theorem sorted_getD_mono {l : List ℚ} (h : l.Sorted (· ≤ ·)) {i j : Nat}
    (hij : i ≤ j) (hj : j < l.length) (d d' : ℚ) : l.getD i d ≤ l.getD j d' := by
  have hi : i < l.length := lt_of_le_of_lt hij hj
  rw [List.getD_eq_getElem l d hi, List.getD_eq_getElem l d' hj]
  have := @List.Sorted.rel_get_of_le ℚ (· ≤ ·) _ l h ⟨i, hi⟩ ⟨j, hj⟩ hij
  simpa using this

/-- Monotonicity of the linear-interpolation formula on a sorted list:
interpolating at position `m1 / b` is at most interpolating at position
`m2 / b` when `m1 ≤ m2`. -/
theorem interp_mono (s : List ℚ) (hsorted : s.Sorted (· ≤ ·)) (b m1 m2 : Nat)
    (hb : 0 < b) (hm : m1 ≤ m2) (hm2 : m2 / b < s.length) :
    s.getD (m1 / b) 0 +
        ((m1 % b : Nat) : ℚ) / (b : ℚ) *
          (s.getD (m1 / b + 1) (s.getD (m1 / b) 0) - s.getD (m1 / b) 0) ≤
      s.getD (m2 / b) 0 +
        ((m2 % b : Nat) : ℚ) / (b : ℚ) *
          (s.getD (m2 / b + 1) (s.getD (m2 / b) 0) - s.getD (m2 / b) 0) := by
  have e1 : b * (m1 / b) + m1 % b = m1 := Nat.div_add_mod m1 b
  have e2 : b * (m2 / b) + m2 % b = m2 := Nat.div_add_mod m2 b
  set k1 := m1 / b with hk1
  set r1 := m1 % b with hr1
  set k2 := m2 / b with hk2
  set r2 := m2 % b with hr2
  have hk12 : k1 ≤ k2 := by rw [hk1, hk2]; exact Nat.div_le_div_right hm
  have hk1n : k1 < s.length := lt_of_le_of_lt hk12 hm2
  have hr1b : r1 < b := by rw [hr1]; exact Nat.mod_lt _ hb
  have hr2b : r2 < b := by rw [hr2]; exact Nat.mod_lt _ hb
  have htb : (0 : ℚ) < (b : ℚ) := by exact_mod_cast hb
  have ht1 : (0 : ℚ) ≤ (r1 : ℚ) / (b : ℚ) := by positivity
  have ht2 : (0 : ℚ) ≤ (r2 : ℚ) / (b : ℚ) := by positivity
  have ht1' : (r1 : ℚ) / (b : ℚ) ≤ 1 := by
    rw [div_le_one htb]
    exact_mod_cast le_of_lt hr1b
  have hlohi1 : s.getD k1 0 ≤ s.getD (k1 + 1) (s.getD k1 0) := by
    by_cases hk : k1 + 1 < s.length
    · exact sorted_getD_mono hsorted (Nat.le_succ k1) hk 0 _
    · rw [List.getD_eq_default _ _ (Nat.le_of_not_lt hk)]
  have hlohi2 : s.getD k2 0 ≤ s.getD (k2 + 1) (s.getD k2 0) := by
    by_cases hk : k2 + 1 < s.length
    · exact sorted_getD_mono hsorted (Nat.le_succ k2) hk 0 _
    · rw [List.getD_eq_default _ _ (Nat.le_of_not_lt hk)]
  rcases Nat.lt_or_ge k1 k2 with hlt | hge
  · have hk1n' : k1 + 1 < s.length := by omega
    have hstep : s.getD (k1 + 1) (s.getD k1 0) ≤ s.getD k2 0 :=
      sorted_getD_mono hsorted (by omega) hm2 _ _
    have hval1 : s.getD k1 0 +
        (r1 : ℚ) / (b : ℚ) * (s.getD (k1 + 1) (s.getD k1 0) - s.getD k1 0) ≤
        s.getD (k1 + 1) (s.getD k1 0) := by nlinarith
    have hval2 : s.getD k2 0 ≤ s.getD k2 0 +
        (r2 : ℚ) / (b : ℚ) * (s.getD (k2 + 1) (s.getD k2 0) - s.getD k2 0) := by nlinarith
    linarith
  · have hk : k1 = k2 := le_antisymm hk12 hge
    have hr12 : r1 ≤ r2 := by
      have hchain : b * k1 + r1 ≤ b * k1 + r2 := by
        calc b * k1 + r1 = m1 := e1
          _ ≤ m2 := hm
          _ = b * k2 + r2 := e2.symm
          _ = b * k1 + r2 := by rw [hk]
      exact Nat.le_of_add_le_add_left hchain
    have htr : (r1 : ℚ) / (b : ℚ) ≤ (r2 : ℚ) / (b : ℚ) :=
      (div_le_div_iff_of_pos_right htb).mpr (by exact_mod_cast hr12)
    rw [← hk] at hlohi2 ⊢
    have := mul_le_mul_of_nonneg_right htr
      (by linarith : (0 : ℚ) ≤ s.getD (k1 + 1) (s.getD k1 0) - s.getD k1 0)
    linarith

/-- `quantileN` is monotone in the probability level. -/
theorem quantileN_mono (xs : List ℚ) (a a' b : Nat) (hb : 0 < b)
    (haa : a ≤ a') (hab : a' ≤ b) : quantileN xs a b ≤ quantileN xs a' b := by
  unfold quantileN
  by_cases hn0 : (sortedAsc xs).length = 0
  · rw [if_pos hn0, if_pos hn0]
  · rw [if_neg hn0, if_neg hn0]
    simp only
    apply interp_mono (sortedAsc xs) (sortedAsc_sorted xs) b _ _ hb
      (Nat.mul_le_mul_right _ haa)
    have h1 : a' * ((sortedAsc xs).length - 1) ≤ b * ((sortedAsc xs).length - 1) :=
      Nat.mul_le_mul_right _ hab
    have h2 : a' * ((sortedAsc xs).length - 1) / b ≤
        b * ((sortedAsc xs).length - 1) / b := Nat.div_le_div_right h1
    rw [Nat.mul_div_cancel_left _ hb] at h2
    omega

/-- On a constant list every quantile is the constant. -/
theorem quantileN_const (xs : List ℚ) (c : ℚ) (a b : Nat) (hb : 0 < b)
    (hab : a ≤ b) (hne : xs ≠ []) (h : ∀ x ∈ xs, x = c) :
    quantileN xs a b = c := by
  unfold quantileN
  have hn0 : ¬(sortedAsc xs).length = 0 := by
    rw [sortedAsc_length]
    intro h0
    exact hne (List.eq_nil_of_length_eq_zero h0)
  rw [if_neg hn0]
  simp only
  have hs : ∀ y ∈ sortedAsc xs, y = c := fun y hy => h y (mem_sortedAsc.mp hy)
  have hkn : a * ((sortedAsc xs).length - 1) / b < (sortedAsc xs).length := by
    have h1 : a * ((sortedAsc xs).length - 1) ≤ b * ((sortedAsc xs).length - 1) :=
      Nat.mul_le_mul_right _ hab
    have h2 : a * ((sortedAsc xs).length - 1) / b ≤
        b * ((sortedAsc xs).length - 1) / b := Nat.div_le_div_right h1
    rw [Nat.mul_div_cancel_left _ hb] at h2
    omega
  have hlo : (sortedAsc xs).getD (a * ((sortedAsc xs).length - 1) / b) 0 = c := by
    rw [List.getD_eq_getElem _ _ hkn]
    exact hs _ (List.getElem_mem hkn)
  by_cases hk1 : a * ((sortedAsc xs).length - 1) / b + 1 < (sortedAsc xs).length
  · have hhi : (sortedAsc xs).getD (a * ((sortedAsc xs).length - 1) / b + 1)
        ((sortedAsc xs).getD (a * ((sortedAsc xs).length - 1) / b) 0) = c := by
      rw [List.getD_eq_getElem _ _ hk1]
      exact hs _ (List.getElem_mem hk1)
    rw [hhi, hlo]
    ring
  · rw [List.getD_eq_default _ _ (Nat.le_of_not_lt hk1), hlo]
    ring

/-- A numeric cell of a column contributes its value to `cellNums`. -/
theorem mem_cellNums {q : ℚ} {cells : List CVal} (h : CVal.num q ∈ cells) :
    q ∈ cellNums cells :=
  List.mem_filterMap.mpr ⟨.num q, h, rfl⟩

/-- Claim C3, counterexample: the column `[1,1,1,1,100]` has
`Q1 = Q3 = 1`, hence `IQR = 0`, yet the capping step flags `100`
(it lies outside the collapsed fence `[1,1]`) and replaces it with the
median `1` — so a zero IQR does not mean no values are flagged. -/
theorem capColumn_changes_zero_iqr_column :
    quantileN (cellNums zeroIqrColumn) 3 4 - quantileN (cellNums zeroIqrColumn) 1 4 = 0 ∧
    capColumn zeroIqrColumn ≠ zeroIqrColumn := by
  have h1 : quantileN (cellNums zeroIqrColumn) 1 4 = 1 := by
    norm_num [zeroIqrColumn, cellNums, quantileN, sortedAsc, List.insertionSort,
      List.orderedInsert, List.filterMap]
  have h3 : quantileN (cellNums zeroIqrColumn) 3 4 = 1 := by
    norm_num [zeroIqrColumn, cellNums, quantileN, sortedAsc, List.insertionSort,
      List.orderedInsert, List.filterMap]
  have h2 : quantileN (cellNums zeroIqrColumn) 2 4 = 1 := by
    norm_num [zeroIqrColumn, cellNums, quantileN, sortedAsc, List.insertionSort,
      List.orderedInsert, List.filterMap]
  refine ⟨by rw [h1, h3]; norm_num, ?_⟩
  have hcap : capColumn zeroIqrColumn =
      [.num 1, .num 1, .num 1, .num 1, .num 1] := by
    unfold capColumn capCell
    rw [if_neg (by simp [zeroIqrColumn, cellNums, List.filterMap])]
    simp only [h1, h2, h3]
    norm_num [zeroIqrColumn]
  rw [hcap]
  intro hcontra
  have h4 := congrArg (fun l => l.getD 4 CVal.null) hcontra
  simp [zeroIqrColumn] at h4

/-- Claim C3, amended: for a constant numeric column (the spec's own
parenthetical reading of the zero-IQR case) the capping step flags
nothing — every cell is left unchanged. -/
theorem capColumn_constant_column_id (cells : List CVal) (c : ℚ)
    (h : ∀ x ∈ cellNums cells, x = c) : capColumn cells = cells := by
  unfold capColumn
  by_cases he : cellNums cells = []
  · rw [if_pos he]
  · rw [if_neg he]
    have hq1 : quantileN (cellNums cells) 1 4 = c :=
      quantileN_const _ c 1 4 (by norm_num) (by norm_num) he h
    have hq2 : quantileN (cellNums cells) 2 4 = c :=
      quantileN_const _ c 2 4 (by norm_num) (by norm_num) he h
    have hq3 : quantileN (cellNums cells) 3 4 = c :=
      quantileN_const _ c 3 4 (by norm_num) (by norm_num) he h
    have hcell : ∀ x ∈ cells, capCell (cellNums cells) x = id x := by
      intro x hx
      cases x with
      | num q =>
        have hqc : q = c := h q (mem_cellNums hx)
        subst hqc
        simp only [capCell, hq1, hq2, hq3, id]
        rw [if_neg (by rintro (hc | hc) <;> simp at hc)]
      | str s => rfl
      | null => rfl
      | nested s => rfl
      | time y m d hh => rfl
    rw [List.map_congr_left hcell, List.map_id]

/-- Witness for `capColumn_constant_column_id` at a concrete constant
column with a missing entry. -/
theorem capColumn_constant_column_id_witness :
    (∀ x ∈ cellNums constantColumn, x = 5) ∧
    capColumn constantColumn = constantColumn :=
  ⟨by decide, capColumn_constant_column_id constantColumn 5 (by decide)⟩

/-- Claim C4: on a numeric column with nonzero IQR, capping preserves the
cell count (out-of-fence values are replaced, not removed) and afterwards
every numeric value lies inside `[Q1 - 1.5*IQR, Q3 + 1.5*IQR]`, the
fences computed on the column before capping. -/
theorem capColumn_bounds (cells : List CVal)
    (hiqr : quantileN (cellNums cells) 3 4 - quantileN (cellNums cells) 1 4 ≠ 0) :
    (capColumn cells).length = cells.length ∧
    ∀ q : ℚ, CVal.num q ∈ capColumn cells →
      quantileN (cellNums cells) 1 4 -
          3/2 * (quantileN (cellNums cells) 3 4 - quantileN (cellNums cells) 1 4) ≤ q ∧
      q ≤ quantileN (cellNums cells) 3 4 +
          3/2 * (quantileN (cellNums cells) 3 4 - quantileN (cellNums cells) 1 4) := by
  have hne : cellNums cells ≠ [] := by
    intro he
    apply hiqr
    rw [he]
    norm_num [quantileN, sortedAsc, List.insertionSort]
  have h13 : quantileN (cellNums cells) 1 4 ≤ quantileN (cellNums cells) 3 4 :=
    quantileN_mono _ 1 3 4 (by norm_num) (by norm_num) (by norm_num)
  have h12 : quantileN (cellNums cells) 1 4 ≤ quantileN (cellNums cells) 2 4 :=
    quantileN_mono _ 1 2 4 (by norm_num) (by norm_num) (by norm_num)
  have h23 : quantileN (cellNums cells) 2 4 ≤ quantileN (cellNums cells) 3 4 :=
    quantileN_mono _ 2 3 4 (by norm_num) (by norm_num) (by norm_num)
  unfold capColumn
  rw [if_neg hne]
  refine ⟨List.length_map _ _, ?_⟩
  intro q hq
  rcases List.mem_map.mp hq with ⟨x, hxmem, hxe⟩
  cases x with
  | num q0 =>
    simp only [capCell] at hxe
    split at hxe
    · injection hxe with hqe
      constructor <;> linarith
    · injection hxe with hqe
      rename_i hcond
      push_neg at hcond
      constructor <;> linarith [hcond.1, hcond.2]
  | str s => simp [capCell] at hxe
  | null => simp [capCell] at hxe
  | nested s => simp [capCell] at hxe
  | time y m d hh => simp [capCell] at hxe

/-- Witness for `capColumn_bounds` at the spec §8 scenario column
`[1,2,3,4,100]` (`Q1 = 2`, `Q3 = 4`, `IQR = 2`). -/
theorem capColumn_bounds_witness :
    quantileN (cellNums capWitnessColumn) 3 4 -
      quantileN (cellNums capWitnessColumn) 1 4 ≠ 0 ∧
    (capColumn capWitnessColumn).length = capWitnessColumn.length := by
  have h1 : quantileN (cellNums capWitnessColumn) 1 4 = 2 := by
    norm_num [capWitnessColumn, cellNums, quantileN, sortedAsc, List.insertionSort,
      List.orderedInsert, List.filterMap]
  have h3 : quantileN (cellNums capWitnessColumn) 3 4 = 4 := by
    norm_num [capWitnessColumn, cellNums, quantileN, sortedAsc, List.insertionSort,
      List.orderedInsert, List.filterMap]
  have hiqr : quantileN (cellNums capWitnessColumn) 3 4 -
      quantileN (cellNums capWitnessColumn) 1 4 ≠ 0 := by
    rw [h1, h3]
    norm_num
  exact ⟨hiqr, (capColumn_bounds capWitnessColumn hiqr).1⟩

/-! ### Normalization lemmas (over the reals) -/

theorem list_sum_map_div (xs : List ℝ) (s : ℝ) :
    (xs.map fun x => x / s).sum = xs.sum / s := by
  induction xs with
  | nil => simp
  | cons a t ih => simp [ih, add_div]

theorem list_sum_map_sub (xs : List ℝ) (c : ℝ) :
    (xs.map fun x => x - c).sum = xs.sum - (xs.length : ℝ) * c := by
  induction xs with
  | nil => simp
  | cons a t ih =>
    simp only [List.map_cons, List.sum_cons, ih, List.length_cons]
    push_cast
    ring

theorem popVar_nonneg (xs : List ℝ) : 0 ≤ popVar xs := by
  unfold popVar
  apply div_nonneg
  · apply List.sum_nonneg
    intro x hx
    rcases List.mem_map.mp hx with ⟨y, _, hye⟩
    rw [← hye]
    positivity
  · positivity

theorem all_zero_of_sum_zero_nonneg :
    ∀ (xs : List ℝ), (∀ x ∈ xs, 0 ≤ x) → xs.sum = 0 → ∀ x ∈ xs, x = 0
  | [], _, _, x, hx => absurd hx (List.not_mem_nil x)
  | a :: t, h0, hs, x, hx => by
    have hts : 0 ≤ t.sum := List.sum_nonneg fun y hy => h0 y (List.mem_cons_of_mem a hy)
    have ha : 0 ≤ a := h0 a (List.mem_cons_self a t)
    have hsum : a + t.sum = 0 := by simpa using hs
    have ha0 : a = 0 := by linarith
    have hts0 : t.sum = 0 := by linarith
    rcases List.mem_cons.mp hx with rfl | hx
    · exact ha0
    · exact all_zero_of_sum_zero_nonneg t
        (fun y hy => h0 y (List.mem_cons_of_mem a hy)) hts0 x hx

theorem cellNums_map_num (f : ℚ → ℚ) :
    ∀ cells : List CVal,
      cellNums (cells.map fun c => match c with
        | .num q => .num (f q)
        | other => other) = (cellNums cells).map f
  | [] => rfl
  | a :: t => by
    cases a <;> simpa [cellNums] using cellNums_map_num f t

/-- The ℚ-level per-cell scaling of the Feature Builder agrees with the
column-level `standardScale` on the numeric values of the column. -/
theorem cellNums_scaleColCells (sqrtF : ℚ → ℚ) (cells : List CVal) :
    cellNums (scaleColCells sqrtF cells) = standardScale sqrtF (cellNums cells) :=
  cellNums_map_num (zval sqrtF (cellNums cells)) cells

theorem mean_standardScale (xs : List ℝ) (hv : popVar xs ≠ 0) :
    listMean (standardScale Real.sqrt xs) = 0 := by
  have hxne : xs ≠ [] := by
    intro he
    exact hv (by rw [he]; simp [popVar])
  have hn : (xs.length : ℝ) ≠ 0 := by
    have : xs.length ≠ 0 := fun h => hxne (List.eq_nil_of_length_eq_zero h)
    exact_mod_cast this
  have hsum : (standardScale Real.sqrt xs).sum = 0 := by
    unfold standardScale zval
    have hrw : (xs.map fun x => (x - listMean xs) / scaleOf Real.sqrt xs) =
        ((xs.map fun x => x - listMean xs).map fun y => y / scaleOf Real.sqrt xs) := by
      rw [List.map_map]
      rfl
    rw [hrw, list_sum_map_div, list_sum_map_sub]
    unfold listMean
    rw [mul_div_cancel₀ _ hn]
    simp
  unfold listMean
  rw [hsum]
  simp [standardScale]

theorem popVar_standardScale (xs : List ℝ) (hv : popVar xs ≠ 0) :
    popVar (standardScale Real.sqrt xs) = 1 := by
  have hxne : xs ≠ [] := by
    intro he
    exact hv (by rw [he]; simp [popVar])
  have hn : (xs.length : ℝ) ≠ 0 := by
    have : xs.length ≠ 0 := fun h => hxne (List.eq_nil_of_length_eq_zero h)
    exact_mod_cast this
  have hvpos : 0 < popVar xs := lt_of_le_of_ne (popVar_nonneg xs) (Ne.symm hv)
  have hs : scaleOf Real.sqrt xs = Real.sqrt (popVar xs) := by
    simp [scaleOf, hv]
  have hs2 : scaleOf Real.sqrt xs ^ 2 = popVar xs := by
    rw [hs]
    exact Real.sq_sqrt (le_of_lt hvpos)
  have hmz := mean_standardScale xs hv
  unfold popVar
  rw [hmz]
  have hlen : (standardScale Real.sqrt xs).length = xs.length := by
    simp [standardScale]
  rw [hlen]
  have hmaps : ((standardScale Real.sqrt xs).map fun y => (y - 0) ^ 2).sum =
      (xs.map fun x => (x - listMean xs) ^ 2).sum / scaleOf Real.sqrt xs ^ 2 := by
    unfold standardScale zval
    rw [List.map_map]
    have hcong : ((fun y => (y - 0) ^ 2) ∘ fun x =>
        (x - listMean xs) / scaleOf Real.sqrt xs) =
        fun x => (x - listMean xs) ^ 2 / scaleOf Real.sqrt xs ^ 2 := by
      funext x
      simp [Function.comp, div_pow]
    rw [hcong]
    have hrw : (xs.map fun x => (x - listMean xs) ^ 2 / scaleOf Real.sqrt xs ^ 2) =
        ((xs.map fun x => (x - listMean xs) ^ 2).map fun y =>
          y / scaleOf Real.sqrt xs ^ 2) := by
      rw [List.map_map]
      rfl
    rw [hrw, list_sum_map_div]
  rw [hmaps, hs2]
  rw [div_div, mul_comm, ← div_div]
  have : (xs.map fun x => (x - listMean xs) ^ 2).sum / (xs.length : ℝ) = popVar xs := rfl
  rw [this]
  exact div_self hv

/-- Claim C7: after the Feature Builder's z-score normalization (the
`standardScale` operation applied to each numeric column, idealized over
the reals with the exact square root), a column with nonzero variance has
mean exactly 0 and population variance exactly 1 (hence standard
deviation `sqrt 1 = 1`), and a column with zero variance is left at zero
rather than producing a division by zero (`StandardScaler` uses scale 1
there). -/
theorem standardScale_mean_zero_var_one (xs : List ℝ) :
    (popVar xs ≠ 0 →
      listMean (standardScale Real.sqrt xs) = 0 ∧
      popVar (standardScale Real.sqrt xs) = 1) ∧
    (popVar xs = 0 → ∀ y ∈ standardScale Real.sqrt xs, y = 0) := by
  constructor
  · intro hv
    exact ⟨mean_standardScale xs hv, popVar_standardScale xs hv⟩
  · intro hv y hy
    rcases List.mem_map.mp hy with ⟨x, hxmem, hxe⟩
    by_cases hn : (xs.length : ℝ) = 0
    · have : xs = [] := by
        have : xs.length = 0 := by exact_mod_cast hn
        exact List.eq_nil_of_length_eq_zero this
      rw [this] at hxmem
      exact absurd hxmem (List.not_mem_nil x)
    · have hsum0 : (xs.map fun x => (x - listMean xs) ^ 2).sum = 0 := by
        unfold popVar at hv
        rcases div_eq_zero_iff.mp hv with h | h
        · exact h
        · exact absurd h hn
      have hxmu : x - listMean xs = 0 := by
        have hsq : (x - listMean xs) ^ 2 = 0 := by
          apply all_zero_of_sum_zero_nonneg (xs.map fun x => (x - listMean xs) ^ 2)
          · intro z hz
            rcases List.mem_map.mp hz with ⟨w, _, hwe⟩
            rw [← hwe]
            positivity
          · exact hsum0
          · exact List.mem_map_of_mem _ hxmem
        exact pow_eq_zero_iff (by norm_num) |>.mp hsq
      rw [← hxe]
      unfold zval
      rw [hxmu, zero_div]

/-- Witness for `standardScale_mean_zero_var_one`: the column `[0, 2]`
(variance 1) and the constant column `[5, 5]` (variance 0). -/
theorem standardScale_mean_zero_var_one_witness :
    (popVar ([0, 2] : List ℝ) ≠ 0 ∧
      listMean (standardScale Real.sqrt [0, 2]) = 0 ∧
      popVar (standardScale Real.sqrt [0, 2]) = 1) ∧
    (popVar ([5, 5] : List ℝ) = 0 ∧
      ∀ y ∈ standardScale Real.sqrt ([5, 5] : List ℝ), y = 0) := by
  have hv1 : popVar ([0, 2] : List ℝ) = 1 := by
    norm_num [popVar, listMean]
  have hv0 : popVar ([5, 5] : List ℝ) = 0 := by
    norm_num [popVar, listMean]
  refine ⟨⟨by rw [hv1]; norm_num, ?_⟩, hv0, ?_⟩
  · exact (standardScale_mean_zero_var_one [0, 2]).1 (by rw [hv1]; norm_num)
  · exact (standardScale_mean_zero_var_one [5, 5]).2 hv0

/-! ### Cleaner idempotence analysis (claim C1)

A second `clean_data` run never changes anything through its
stringification and imputation steps: the first run leaves no structured
values anywhere, and every column leaves imputation inert (either it has
no missing entries, or it is an all-missing mean-dtype column whose
`NaN` mean makes `fillna` a no-op).  Deduplication and capping, however,
can change the result again — see the counterexample. -/

theorem mem_selectIdx {x : CVal} {keep : List Nat} {cells : List CVal}
    (h : x ∈ selectIdx keep cells) : x ∈ cells := by
  unfold selectIdx at h
  rcases List.mem_map.mp h with ⟨p, hp, hpe⟩
  have hpenum : p ∈ cells.enum := (List.mem_filter.mp hp).1
  have : ∀ (n : Nat) (l : List CVal) (p : Nat × CVal), p ∈ List.enumFrom n l → p.2 ∈ l := by
    intro n l
    induction l generalizing n with
    | nil => intro p hp; cases hp
    | cons a t ih =>
      intro p hp
      rcases List.mem_cons.mp hp with rfl | hp
      · exact List.mem_cons_self _ _
      · exact List.mem_cons_of_mem _ (ih (n + 1) p hp)
  rw [← hpe]
  exact this 0 cells p hpenum

theorem capColumn_length (cells : List CVal) :
    (capColumn cells).length = cells.length := by
  unfold capColumn
  split
  · rfl
  · exact List.length_map _ _

/-- `capCell` maps numeric cells to numeric cells and leaves every other
cell unchanged, so it cannot create missing or structured values. -/
theorem capCell_shape (nums : List ℚ) (x : CVal) :
    (∃ q q', x = .num q ∧ capCell nums x = .num q') ∨ capCell nums x = x := by
  cases x with
  | num q =>
    left
    refine ⟨q, ?_, rfl, ?_⟩
    · exact if q < quantileN nums 1 4 - 3/2 * (quantileN nums 3 4 - quantileN nums 1 4) ∨
        q > quantileN nums 3 4 + 3/2 * (quantileN nums 3 4 - quantileN nums 1 4)
        then quantileN nums 2 4 else q
    · simp only [capCell]
      split <;> rfl
  | str s => right; rfl
  | null => right; rfl
  | nested s => right; rfl
  | time y m d h => right; rfl

theorem capColumn_no_null (cells : List CVal)
    (h : ∀ x ∈ cells, x.isNull = false) :
    ∀ y ∈ capColumn cells, y.isNull = false := by
  unfold capColumn
  split
  · exact h
  · intro y hy
    rcases List.mem_map.mp hy with ⟨x, hx, hxe⟩
    rcases capCell_shape (cellNums cells) x with ⟨q, q', hxq, hcap⟩ | hid
    · rw [← hxe, hcap]
      rfl
    · rw [← hxe, hid]
      exact h x hx

theorem capColumn_no_nested (cells : List CVal)
    (h : ∀ x ∈ cells, x.isNested = false) :
    ∀ y ∈ capColumn cells, y.isNested = false := by
  unfold capColumn
  split
  · exact h
  · intro y hy
    rcases List.mem_map.mp hy with ⟨x, hx, hxe⟩
    rcases capCell_shape (cellNums cells) x with ⟨q, q', hxq, hcap⟩ | hid
    · rw [← hxe, hcap]
      rfl
    · rw [← hxe, hid]
      exact h x hx

theorem fillNullNum_no_null (m : ℚ) (x : CVal) : (fillNullNum m x).isNull = false := by
  cases x <;> rfl

theorem fillNullStr_no_null (x : CVal) : (fillNullStr x).isNull = false := by
  cases x <;> rfl

theorem fillNullNum_no_nested (m : ℚ) (x : CVal) (h : x.isNested = false) :
    (fillNullNum m x).isNested = false := by
  cases x <;> first | rfl | exact h

theorem fillNullStr_no_nested (x : CVal) (h : x.isNested = false) :
    (fillNullStr x).isNested = false := by
  cases x <;> first | rfl | exact h

/-- After the stringification pass no column holds a structured value. -/
theorem stringifyCol_no_nested (c : Col) :
    ∀ x ∈ (stringifyCol c).cells, x.isNested = false := by
  unfold stringifyCol
  split
  · intro x hx
    rcases List.mem_map.mp hx with ⟨y, _, hye⟩
    rw [← hye]
    cases y <;> rfl
  · rename_i hany
    intro x hx
    by_cases hn : x.isNested = true
    · exact absurd (List.any_eq_true.mpr ⟨x, hx, hn⟩) hany
    · simpa using hn

/-- A DataFrame without structured values passes the stringification
step unchanged. -/
theorem stringifyDf_id (d : DataFrame)
    (h : ∀ p ∈ d.cols, ∀ x ∈ p.2.cells, x.isNested = false) :
    stringifyDf d = d := by
  unfold stringifyDf
  have hcols : d.cols.map (fun p => (p.1, stringifyCol p.2)) = d.cols := by
    have : ∀ p ∈ d.cols, (p.1, stringifyCol p.2) = id p := by
      intro p hp
      have hcol : stringifyCol p.2 = p.2 := by
        unfold stringifyCol
        rw [if_neg]
        intro hany
        rcases List.any_eq_true.mp hany with ⟨x, hx, hn⟩
        rw [h p hp x hx] at hn
        cases hn
      rw [hcol]
      rfl
    rw [List.map_congr_left this, List.map_id]
  rw [hcols]

theorem mem_of_mem_cellNums {q : ℚ} {cells : List CVal}
    (h : q ∈ cellNums cells) : CVal.num q ∈ cells := by
  rcases List.mem_filterMap.mp h with ⟨a, ha, hae⟩
  cases a with
  | num q' =>
    simp only [Option.some.injEq] at hae
    rw [hae] at ha
    exact ha
  | str s => cases hae
  | null => cases hae
  | nested s => cases hae
  | time y m d hh => cases hae

theorem capColumn_of_empty {cells : List CVal} (h : cellNums cells = []) :
    capColumn cells = cells := by
  unfold capColumn
  rw [if_pos h]

theorem cellNums_selectIdx_empty (K : List Nat) (cells : List CVal)
    (h : cellNums cells = []) : cellNums (selectIdx K cells) = [] := by
  rw [List.eq_nil_iff_forall_not_mem]
  intro q hq
  have h1 : CVal.num q ∈ selectIdx K cells := mem_of_mem_cellNums hq
  have h2 : CVal.num q ∈ cells := mem_selectIdx h1
  have h3 : q ∈ cellNums cells := mem_cellNums h2
  rw [h] at h3
  exact absurd h3 (List.not_mem_nil q)

/-- A column is inert under imputation when it has no missing entries,
or when it is an all-missing mean-dtype column (its `NaN` mean makes
`fillna` a no-op). -/
theorem imputeCol_inert (c : Col)
    (h : (∀ x ∈ c.cells, x.isNull = false) ∨
      ((c.dtype = .float64 ∨ c.dtype = .int64) ∧ cellNums c.cells = [])) :
    imputeCol c = c := by
  unfold imputeCol
  split
  · cases hm : colMean c.cells with
    | none => rfl
    | some m =>
      rcases h with hnn | ⟨_, hempty⟩
      · have hmap : c.cells.map (fillNullNum m) = c.cells := by
          have hid : ∀ x ∈ c.cells, fillNullNum m x = id x := by
            intro x hx
            cases x with
            | null => exact absurd (hnn _ hx) (by simp [CVal.isNull])
            | num q => rfl
            | str s => rfl
            | nested s => rfl
            | time y mo d hh => rfl
          rw [List.map_congr_left hid, List.map_id]
        show ({ dtype := c.dtype, cells := List.map (fillNullNum m) c.cells } : Col) = c
        rw [hmap]
      · unfold colMean at hm
        rw [if_pos hempty] at hm
        cases hm
  · split
    · rename_i hdt hany
      rcases h with hnn | ⟨hdt2, _⟩
      · rcases List.any_eq_true.mp hany with ⟨x, hx, hb⟩
        rw [hnn x hx] at hb
        cases hb
      · exact absurd hdt2 hdt
    · rfl

/-- After imputation a column either has no missing entries, or it kept
its mean dtype and is still entirely missing. -/
theorem imputeCol_post (c : Col) :
    (∀ x ∈ (imputeCol c).cells, x.isNull = false) ∨
    (cellNums (imputeCol c).cells = [] ∧
      ((imputeCol c).dtype = .float64 ∨ (imputeCol c).dtype = .int64)) := by
  unfold imputeCol
  split
  · rename_i hdt
    cases hm : colMean c.cells with
    | none =>
      right
      have hempty : cellNums c.cells = [] := by
        by_contra hne
        unfold colMean at hm
        rw [if_neg hne] at hm
        cases hm
      exact ⟨hempty, hdt⟩
    | some m =>
      left
      intro x hx
      rcases List.mem_map.mp hx with ⟨y, _, hye⟩
      rw [← hye]
      exact fillNullNum_no_null m y
  · split
    · left
      intro x hx
      rcases List.mem_map.mp hx with ⟨y, _, hye⟩
      rw [← hye]
      exact fillNullStr_no_null y
    · rename_i hdt hany
      left
      intro x hx
      by_cases hb : x.isNull = true
      · exact absurd (List.any_eq_true.mpr ⟨x, hx, hb⟩) hany
      · simpa using hb

theorem imputeCol_no_nested (c : Col)
    (h : ∀ x ∈ c.cells, x.isNested = false) :
    ∀ y ∈ (imputeCol c).cells, y.isNested = false := by
  unfold imputeCol
  split
  · cases hm : colMean c.cells with
    | none => exact h
    | some m =>
      intro y hy
      rcases List.mem_map.mp hy with ⟨x, hx, hxe⟩
      rw [← hxe]
      exact fillNullNum_no_nested m x (h x hx)
  · split
    · intro y hy
      rcases List.mem_map.mp hy with ⟨x, hx, hxe⟩
      rw [← hxe]
      exact fillNullStr_no_nested x (h x hx)
    · exact h

theorem dfNoNested_stringify (d : DataFrame) :
    ∀ p ∈ (stringifyDf d).cols, ∀ x ∈ p.2.cells, x.isNested = false := by
  intro p hp
  unfold stringifyDf at hp
  rcases List.mem_map.mp hp with ⟨q, hq, hqe⟩
  subst hqe
  exact stringifyCol_no_nested q.2

theorem dfNoNested_dedup (d : DataFrame)
    (h : ∀ p ∈ d.cols, ∀ x ∈ p.2.cells, x.isNested = false) :
    ∀ p ∈ (dedupDf d).cols, ∀ x ∈ p.2.cells, x.isNested = false := by
  intro p hp
  unfold dedupDf at hp
  rcases List.mem_map.mp hp with ⟨q, hq, hqe⟩
  subst hqe
  intro x hx
  exact h q hq x (mem_selectIdx hx)

theorem dfNoNested_impute (d : DataFrame)
    (h : ∀ p ∈ d.cols, ∀ x ∈ p.2.cells, x.isNested = false) :
    ∀ p ∈ (imputeDf d).cols, ∀ x ∈ p.2.cells, x.isNested = false := by
  intro p hp
  unfold imputeDf at hp
  rcases List.mem_map.mp hp with ⟨q, hq, hqe⟩
  subst hqe
  exact imputeCol_no_nested q.2 (h q hq)

theorem dfNoNested_cap (d : DataFrame)
    (h : ∀ p ∈ d.cols, ∀ x ∈ p.2.cells, x.isNested = false) :
    ∀ p ∈ (capDf d).cols, ∀ x ∈ p.2.cells, x.isNested = false := by
  intro p hp
  unfold capDf at hp
  rcases List.mem_map.mp hp with ⟨q, hq, hqe⟩
  subst hqe
  split
  · exact capColumn_no_nested q.2.cells (h q hq)
  · exact h q hq

/-- The Cleaner leaves no structured value anywhere in its output. -/
theorem cleanData_no_nested (df : DataFrame) :
    ∀ p ∈ (cleanData df).cols, ∀ x ∈ p.2.cells, x.isNested = false :=
  dfNoNested_cap _ (dfNoNested_impute _ (dfNoNested_dedup _ (dfNoNested_stringify df)))

/-- Every column of the deduplicated cleaned DataFrame is inert under a
second imputation pass. -/
theorem dedup_cleanData_inert (df : DataFrame) :
    ∀ p ∈ (dedupDf (cleanData df)).cols,
      (∀ x ∈ p.2.cells, x.isNull = false) ∨
        ((p.2.dtype = .float64 ∨ p.2.dtype = .int64) ∧ cellNums p.2.cells = []) := by
  have hclean : ∀ r ∈ (cleanData df).cols,
      (∀ x ∈ r.2.cells, x.isNull = false) ∨
        ((r.2.dtype = .float64 ∨ r.2.dtype = .int64) ∧ cellNums r.2.cells = []) := by
    intro r hr
    unfold cleanData capDf at hr
    rcases List.mem_map.mp hr with ⟨s, hs, hse⟩
    unfold imputeDf at hs
    rcases List.mem_map.mp hs with ⟨t, ht, hte⟩
    subst hte
    subst hse
    rcases imputeCol_post t.2 with hnn | ⟨hempty, hdt⟩
    · split
      · left
        exact capColumn_no_null _ hnn
      · left
        exact hnn
    · have hnum : (imputeCol t.2).dtype.isNumeric = true := by
        rcases hdt with h | h <;> rw [h] <;> rfl
      split
      · right
        refine ⟨Or.inl rfl, ?_⟩
        rw [capColumn_of_empty hempty]
        exact hempty
      · rename_i hnot
        exact absurd hnum hnot
  intro p hp
  unfold dedupDf at hp
  rcases List.mem_map.mp hp with ⟨r, hr, hre⟩
  subst hre
  rcases hclean r hr with hnn | ⟨hdt, hempty⟩
  · left
    intro x hx
    exact hnn x (mem_selectIdx hx)
  · right
    exact ⟨hdt, cellNums_selectIdx_empty _ _ hempty⟩

/-- The second run's imputation step changes nothing. -/
theorem imputeDf_dedup_cleanData (df : DataFrame) :
    imputeDf (dedupDf (cleanData df)) = dedupDf (cleanData df) := by
  have key := dedup_cleanData_inert df
  unfold imputeDf
  have hmap : (dedupDf (cleanData df)).cols.map (fun p => (p.1, imputeCol p.2)) =
      (dedupDf (cleanData df)).cols := by
    have hid : ∀ p ∈ (dedupDf (cleanData df)).cols, (p.1, imputeCol p.2) = id p := by
      intro p hp
      rw [imputeCol_inert p.2 (key p hp)]
      rfl
    rw [List.map_congr_left hid, List.map_id]
  rw [hmap]

/-- The second run's stringification step changes nothing. -/
theorem stringifyDf_cleanData (df : DataFrame) :
    stringifyDf (cleanData df) = cleanData df :=
  stringifyDf_id _ (cleanData_no_nested df)

/-- Claim C1, amended: cleaning is not idempotent, but a second run
reduces to re-deduplicating and re-capping the once-cleaned dataset: its
structural stringification and missing-value imputation steps are
no-ops.  (Deduplication and capping can still change the result — see
the counterexample theorem below.) -/
theorem cleanData_twice_eq_cap_dedup (df : DataFrame) :
    cleanData (cleanData df) = capDf (dedupDf (cleanData df)) := by
  have h1 : cleanData (cleanData df) =
      capDf (imputeDf (dedupDf (stringifyDf (cleanData df)))) := rfl
  rw [h1, stringifyDf_cleanData, imputeDf_dedup_cleanData]

/-- Claim C1, counterexample: on the spec §8 scenario dataset (a single
numeric column `[1,2,3,4,100]`) one cleaning run caps `100` to the median
`3`, giving `[1,2,3,4,3]` with 5 rows; a second run's deduplication then
removes the row that capping made identical to an earlier one, giving
`[1,2,3,4]` with 4 rows — so cleaning is not idempotent. -/
theorem cleanData_twice_ne_once :
    cleanData (cleanData dfScenario) ≠ cleanData dfScenario := by
  have hpre : imputeDf (dedupDf (stringifyDf dfScenario)) = dfScenario := by rfl
  have hq1 : quantileN (cellNums [CVal.num 1, CVal.num 2, CVal.num 3, CVal.num 4,
      CVal.num 100]) 1 4 = 2 := by
    norm_num [cellNums, quantileN, sortedAsc, List.insertionSort, List.orderedInsert,
      List.filterMap]
  have hq2 : quantileN (cellNums [CVal.num 1, CVal.num 2, CVal.num 3, CVal.num 4,
      CVal.num 100]) 2 4 = 3 := by
    norm_num [cellNums, quantileN, sortedAsc, List.insertionSort, List.orderedInsert,
      List.filterMap]
  have hq3 : quantileN (cellNums [CVal.num 1, CVal.num 2, CVal.num 3, CVal.num 4,
      CVal.num 100]) 3 4 = 4 := by
    norm_num [cellNums, quantileN, sortedAsc, List.insertionSort, List.orderedInsert,
      List.filterMap]
  have hcap : capColumn [CVal.num 1, CVal.num 2, CVal.num 3, CVal.num 4, CVal.num 100] =
      [CVal.num 1, CVal.num 2, CVal.num 3, CVal.num 4, CVal.num 3] := by
    unfold capColumn capCell
    rw [if_neg (by simp [cellNums, List.filterMap])]
    simp only [hq1, hq2, hq3]
    norm_num
  have h1 : cleanData dfScenario =
      ⟨5, [("value", ⟨.float64, [CVal.num 1, CVal.num 2, CVal.num 3, CVal.num 4,
        CVal.num 3]⟩)]⟩ := by
    have hstep : cleanData dfScenario = capDf dfScenario := by
      rw [show cleanData dfScenario =
        capDf (imputeDf (dedupDf (stringifyDf dfScenario))) from rfl, hpre]
    rw [hstep]
    simp [capDf, dfScenario, hcap, Dtype.isNumeric]
  have hpre2 : imputeDf (dedupDf (stringifyDf
      (⟨5, [("value", ⟨.float64, [CVal.num 1, CVal.num 2, CVal.num 3, CVal.num 4,
        CVal.num 3]⟩)]⟩ : DataFrame))) =
      ⟨4, [("value", ⟨.float64, [CVal.num 1, CVal.num 2, CVal.num 3, CVal.num 4]⟩)]⟩ := by
    rfl
  have hq1b : quantileN (cellNums [CVal.num 1, CVal.num 2, CVal.num 3, CVal.num 4]) 1 4 =
      7/4 := by
    norm_num [cellNums, quantileN, sortedAsc, List.insertionSort, List.orderedInsert,
      List.filterMap]
  have hq2b : quantileN (cellNums [CVal.num 1, CVal.num 2, CVal.num 3, CVal.num 4]) 2 4 =
      5/2 := by
    norm_num [cellNums, quantileN, sortedAsc, List.insertionSort, List.orderedInsert,
      List.filterMap]
  have hq3b : quantileN (cellNums [CVal.num 1, CVal.num 2, CVal.num 3, CVal.num 4]) 3 4 =
      13/4 := by
    norm_num [cellNums, quantileN, sortedAsc, List.insertionSort, List.orderedInsert,
      List.filterMap]
  have hcap2 : capColumn [CVal.num 1, CVal.num 2, CVal.num 3, CVal.num 4] =
      [CVal.num 1, CVal.num 2, CVal.num 3, CVal.num 4] := by
    unfold capColumn capCell
    rw [if_neg (by simp [cellNums, List.filterMap])]
    simp only [hq1b, hq2b, hq3b]
    norm_num
  have h2 : cleanData (⟨5, [("value", ⟨.float64, [CVal.num 1, CVal.num 2, CVal.num 3,
      CVal.num 4, CVal.num 3]⟩)]⟩ : DataFrame) =
      ⟨4, [("value", ⟨.float64, [CVal.num 1, CVal.num 2, CVal.num 3, CVal.num 4]⟩)]⟩ := by
    have hstep : cleanData (⟨5, [("value", ⟨.float64, [CVal.num 1, CVal.num 2, CVal.num 3,
        CVal.num 4, CVal.num 3]⟩)]⟩ : DataFrame) =
        capDf ⟨4, [("value", ⟨.float64, [CVal.num 1, CVal.num 2, CVal.num 3,
          CVal.num 4]⟩)]⟩ := by
      rw [show cleanData (⟨5, [("value", ⟨.float64, [CVal.num 1, CVal.num 2, CVal.num 3,
        CVal.num 4, CVal.num 3]⟩)]⟩ : DataFrame) =
        capDf (imputeDf (dedupDf (stringifyDf (⟨5, [("value", ⟨.float64, [CVal.num 1,
          CVal.num 2, CVal.num 3, CVal.num 4, CVal.num 3]⟩)]⟩ : DataFrame)))) from rfl,
        hpre2]
    rw [hstep]
    simp [capDf, hcap2, Dtype.isNumeric]
  rw [h1, h2]
  intro hcon
  exact absurd (congrArg DataFrame.nRows hcon) (by decide)

end ETL
